import Mathlib

/-!
Shallow embedding of the gitdocify analysis core (src/analyzer.py and the
key-file selector of src/generator.py), together with proofs of the claims
about it.  Paths and patterns are modelled as Lean `String`s, operated on as
`List Char`; file systems are explicit inductive trees.
-/

namespace Gitdocify

/-- ASCII lower-casing of one character, as Python's `str.lower` acts on the
ASCII range (all extension strings and file names in the claims are ASCII). -/
def lowerChar (c : Char) : Char :=
  if 65 ≤ c.toNat ∧ c.toNat ≤ 90 then Char.ofNat (c.toNat + 32) else c

/-- Embeds `s.lower()` on ASCII strings. -/
def lower (s : String) : String :=
  String.mk (s.toList.map lowerChar)

/-- Split a character list at occurrences of `sep` (the pieces, in order;
`n` separators give `n+1` pieces). -/
def splitOnChar (sep : Char) : List Char → List Char → List (List Char)
  | [], acc => [acc.reverse]
  | c :: rest, acc =>
    if c = sep then acc.reverse :: splitOnChar sep rest []
    else splitOnChar sep rest (c :: acc)

/-- Split at `/` separators, as `pathspec` splits patterns and paths into
segments. -/
def splitSlash (l : List Char) (acc : List Char) : List (List Char) :=
  splitOnChar '/' l acc

/-- Glob match of one pattern segment against one path segment, with an
explicit recursion budget: every recursive call shortens the pattern or the
string, so a budget of `ps.length + s.length` (supplied by `segMatch`) never
runs out.  The budget makes the function structurally recursive, hence
kernel-computable. -/
def segMatchF : Nat → List Char → List Char → Bool
  | 0, _, _ => false
  | _ + 1, [], [] => true
  | _ + 1, [], _ :: _ => false
  | fuel + 1, '*' :: ps, s =>
    segMatchF fuel ps s ||
      (match s with
       | [] => false
       | _ :: cs => segMatchF fuel ('*' :: ps) cs)
  | fuel + 1, '?' :: ps, _ :: cs => segMatchF fuel ps cs
  | _ + 1, _ :: _, [] => false
  | fuel + 1, p :: ps, c :: cs => p == c && segMatchF fuel ps cs

/-- Glob match of one pattern segment against one path segment: `*` matches any
run of characters inside the segment, `?` matches one character, everything
else is literal (the character classes of full `fnmatch` are unused by the
repository's patterns). -/
def segMatch (ps s : List Char) : Bool :=
  segMatchF (ps.length + s.length) ps s

/-- A compiled `gitwildmatch` pattern, as `pathspec.PathSpec.from_lines
('gitwildmatch', …)` compiles each line: `inc` is false for `!`-negated
patterns, `anchored` is true when the pattern contains a `/` (such a pattern
matches from the root only), `segs` are the `/`-separated pattern segments. -/
structure GRule where
  inc : Bool
  anchored : Bool
  segs : List (List Char)
  deriving Repr, DecidableEq

/-- Compile one pattern string into a `GRule` (the `!` prefix negates). -/
def ruleOfPattern (pat : String) : GRule :=
  let (inc, body) :=
    match pat.toList with
    | '!' :: rest => (false, rest)
    | l => (true, l)
  let segs := splitSlash body []
  { inc := inc, anchored := decide (1 < segs.length), segs := segs }

/-- Match the pattern segments against the path segments, mirroring the regex
`pathspec` builds: a final `**` segment becomes `/.*` (at least one further
path segment), and an include pattern not ending in `**` also matches any
deeper path (for include patterns the regex ends in `(?:/.*)?`, so ignoring a
directory ignores its contents; for `!`-negated patterns `pathspec` omits this
suffix, matching `git check-ignore`).  `desc` is that include flag.  Interior
`**` segments do not occur in the repository's patterns. -/
def matchSegs (desc : Bool) : List (List Char) → List (List Char) → Bool
  | [], ss => ss.isEmpty
  | [p], ss =>
    if p = ['*', '*'] then !ss.isEmpty
    else
      match ss with
      | [] => false
      | s :: rest => segMatch p s && (desc || rest.isEmpty)
  | p :: ps, ss =>
    match ss with
    | [] => false
    | s :: ss' => segMatch p s && matchSegs desc ps ss'

/-- Does a compiled rule match a relative path?  An anchored pattern matches
from the root; an unanchored one (the regex prefix `(?:.+/)?`) may start at
any path-segment boundary. -/
def gmatch (r : GRule) (path : String) : Bool :=
  let ss := splitSlash path.toList []
  if r.anchored then matchSegs r.inc r.segs ss
  else (List.range ss.length).any fun j => matchSegs r.inc r.segs (ss.drop j)

/-- Embeds `pathspec.util.match_file`: the `include` flag of the last matching
pattern decides; a path matching no pattern is not excluded. -/
def matchFile (rules : List GRule) (path : String) : Bool :=
  rules.foldl (fun acc r => if gmatch r path then r.inc else acc) false

/-- Embeds `CodebaseAnalyzer.DEFAULT_EXCLUDE_PATTERNS`. -/
def DEFAULT_EXCLUDE_PATTERNS : List String :=
  ["node_modules/**", ".git/**", "__pycache__/**", "*.pyc", ".env*",
   "venv/**", "env/**", ".venv/**", "dist/**", "build/**", "*.log",
   ".DS_Store", "coverage/**", ".coverage", "*.min.js", "*.min.css",
   "package-lock.json", "yarn.lock", ".idea/**", ".vscode/**",
   "*.sqlite*", "*.db", "migrations/**", "static/**", "media/**",
   "uploads/**"]

/-- The extra patterns `CodebaseAnalyzer.__init__` appends when
`include_tests` is false. -/
def TEST_EXCLUDE_PATTERNS : List String :=
  ["test/**", "tests/**", "*_test.py", "test_*.py",
   "*.test.js", "*.test.ts", "*.spec.js", "*.spec.ts"]

/-- The full ordered pattern list built in `CodebaseAnalyzer.__init__`:
user-supplied patterns, then the defaults, then (when tests are not
included) the test patterns. -/
def excludePatterns (user : List String) (includeTests : Bool) : List String :=
  (user ++ DEFAULT_EXCLUDE_PATTERNS) ++
    (if includeTests then [] else TEST_EXCLUDE_PATTERNS)

/-- The compiled rule set `self.spec` of `CodebaseAnalyzer.__init__`. -/
def analyzerRules (user : List String) (includeTests : Bool) : List GRule :=
  (excludePatterns user includeTests).map ruleOfPattern

/-- Embeds `self.spec.match_file(path)` as used throughout the analyzer. -/
def is_excluded (user : List String) (includeTests : Bool) (path : String) : Bool :=
  matchFile (analyzerRules user includeTests) path

/-! ### String utilities shared by the per-file analysis -/

/-- Python's `\s` class, restricted to one character. -/
def isPySpace (c : Char) : Bool :=
  c = ' ' || c = '\t' || c = '\n' || c = '\r' ||
    c = Char.ofNat 11 || c = Char.ofNat 12

/-- Python's `\w` class on the ASCII range (the identifiers the heuristics
capture are ASCII). -/
def isWordChar (c : Char) : Bool :=
  ('a' ≤ c && c ≤ 'z') || ('A' ≤ c && c ≤ 'Z') ||
    ('0' ≤ c && c ≤ '9') || c = '_'

/-- Python's `str.strip()`: drop leading and trailing whitespace. -/
def strip (l : List Char) : List Char :=
  ((l.dropWhile isPySpace).reverse.dropWhile isPySpace).reverse

/-- Is `sub` a contiguous substring of `s`?  (Python's `in` on strings.) -/
def containsSub (sub : List Char) : List Char → Bool
  | [] => sub.isEmpty
  | c :: cs => sub.isPrefixOf (c :: cs) || containsSub sub cs

/-- Remove duplicates keeping the first occurrence of each element.  The
source materializes `list(set(imports))`, whose order CPython leaves
unspecified; the model fixes first-occurrence order, and no later component
depends on the order. -/
def dedupFirstF : Nat → List String → List String
  | 0, _ => []
  | _ + 1, [] => []
  | fuel + 1, x :: xs => x :: dedupFirstF fuel (xs.filter (fun y => y ≠ x))

/-- Remove duplicates keeping the first occurrence, with the recursion budget
instantiated (filtering never lengthens the tail, so `l.length` suffices). -/
def dedupFirst (l : List String) : List String :=
  dedupFirstF l.length l

/-- Index of the last `.` in a name (`str.rfind('.')`), if any. -/
def rfindDot : List Char → Option Nat
  | [] => none
  | c :: cs =>
    match rfindDot cs with
    | some i => some (i + 1)
    | none => if c = '.' then some 0 else none

/-- Embeds `pathlib.PurePath.name`: the final path component. -/
def baseName (path : String) : String :=
  String.mk ((splitSlash path.toList []).getLastD [])

/-- Embeds `pathlib.PurePath.suffix`: the extension of the final component, with the
leading dot, and `""` when the last dot is at position `0` (dot-files) or at
the very end. -/
def pathSuffix (path : String) : String :=
  let cs := (baseName path).toList
  match rfindDot cs with
  | some i => if 0 < i ∧ i < cs.length - 1 then String.mk (cs.drop i) else ""
  | none => ""

/-- Embeds `len(content.splitlines())` for LF-separated text (the claims involve no
exotic line terminators): the number of newline characters, plus one when the
text is non-empty and does not end in a newline. -/
def numLines (content : String) : Nat :=
  let cs := content.toList
  if cs.isEmpty then 0
  else cs.countP (· = '\n') + (if cs.getLast! = '\n' then 0 else 1)

/-- Embeds `CodebaseAnalyzer.SUPPORTED_EXTENSIONS`. -/
def SUPPORTED_EXTENSIONS : List (String × String) :=
  [(".py", "python"), (".js", "javascript"), (".ts", "typescript"),
   (".jsx", "jsx"), (".tsx", "tsx"), (".java", "java"), (".cpp", "cpp"),
   (".c", "c"), (".h", "c"), (".hpp", "cpp"), (".cs", "csharp"),
   (".rb", "ruby"), (".go", "go"), (".rs", "rust"), (".php", "php"),
   (".swift", "swift"), (".kt", "kotlin"), (".scala", "scala"),
   (".r", "r"), (".sql", "sql"), (".sh", "bash"), (".yml", "yaml"),
   (".yaml", "yaml"), (".json", "json"), (".xml", "xml"),
   (".html", "html"), (".css", "css"), (".scss", "scss"),
   (".sass", "sass"), (".md", "markdown"), (".txt", "text"),
   (".dockerfile", "dockerfile"), (".makefile", "makefile"),
   (".toml", "toml"), (".ini", "ini"), (".cfg", "ini")]

/-- The language lookup as performed at both call sites of the analyzer:
`SUPPORTED_EXTENSIONS.get(ext.lower(), 'unknown')` where the extension is
lower-cased first (`file_path.suffix.lower()`). -/
def language_for (ext : String) : String :=
  ((SUPPORTED_EXTENSIONS.lookup (lower ext)).getD "unknown")

/-! ### `CodebaseAnalyzer._analyze_python_file` -/

/-- Per-language extraction result: the keys `_analyze_python_file` /
`_analyze_javascript_file` add to the file dictionary. -/
structure ExtractInfo where
  type : String
  imports : List String
  classes : List String
  functions : List String
  deriving Repr, DecidableEq

/-- A single attempted regex match at the current position: on success the
captured group and the total number of characters the match consumed
(always at least one here, every pattern below starts with a literal). -/
abbrev MatchAt := List Char → Option (String × Nat)

/-- Embeds `re.findall` for a `re.MULTILINE` pattern anchored with `^`: a match is
attempted only at position `0` and right after each `'\n'`; matches are
non-overlapping, scanning resumes after each match's end. -/
def anchorScanF (m : MatchAt) : Nat → List Char → Bool → List String
  | 0, _, _ => []
  | _ + 1, [], _ => []
  | fuel + 1, c :: cs, atAnchor =>
    if atAnchor then
      match m (c :: cs) with
      | some (cap, n) =>
        cap :: anchorScanF m fuel (List.drop (max n 1) (c :: cs)) false
      | none => anchorScanF m fuel cs (c = '\n')
    else anchorScanF m fuel cs (c = '\n')

/-- The anchored scan with its recursion budget instantiated: every step
consumes at least one character, so `l.length` suffices. -/
def anchorScan (m : MatchAt) (l : List Char) (atAnchor : Bool) : List String :=
  anchorScanF m l.length l atAnchor

/-- Embeds `re.findall` for an unanchored pattern: a match is attempted at every
position, matches are non-overlapping. -/
def textScanF (m : MatchAt) : Nat → List Char → List String
  | 0, _ => []
  | _ + 1, [] => []
  | fuel + 1, c :: cs =>
    match m (c :: cs) with
    | some (cap, n) => cap :: textScanF m fuel (List.drop (max n 1) (c :: cs))
    | none => textScanF m fuel cs

/-- The unanchored scan with its recursion budget instantiated. -/
def textScan (m : MatchAt) (l : List Char) : List String :=
  textScanF m l.length l

/-- One attempt of `KW\s+(\w+)` for a literal keyword `KW` (used by
`^class\s+(\w+)` and `^def\s+(\w+)` in the Python extractor and by
`class\s+(\w+)` in the JS extractor): the keyword, at least one whitespace
character (which may cross line ends, `\s` matches `'\n'`), then a maximal
non-empty run of word characters.  `\s+` is greedy and backtracking cannot
help it, since a word character is never whitespace. -/
def declMatchAt (kw : List Char) : MatchAt := fun cs =>
  if cs.take kw.length = kw then
    let r := cs.drop kw.length
    let w := r.takeWhile isPySpace
    if w.isEmpty then none
    else
      let cap := (r.drop w.length).takeWhile isWordChar
      if cap.isEmpty then none
      else some (String.mk cap, kw.length + w.length + cap.length)
  else none

/-- One attempt of `(?:from\s+\S+\s+)?import\s+(.+)$`: the optional
`from\s+\S+\s+` prefix is tried first and abandoned when the rest fails, as
the regex backtracks.  After `import`, `\s+` greedily takes the maximal
whitespace run; `.+` then captures up to the next newline.  When the
whitespace run extends to the end of the content, `\s+` backs off to the
last non-newline whitespace character so that `.+` is non-empty. -/
def pyImportMatchAt : MatchAt := fun cs =>
  let tryImport : MatchAt := fun l =>
    if l.take 6 = "import".toList then
      let r := l.drop 6
      let w := r.takeWhile isPySpace
      if w.isEmpty then none
      else
        let rest := r.drop w.length
        if rest.isEmpty then
          match ((w.drop 1).reverse.findIdx? (· ≠ '\n')) with
          | some k =>
            let a := w.length - 1 - k
            let cap := (w.drop a).takeWhile (· ≠ '\n')
            some (String.mk cap, 6 + a + cap.length)
          | none => none
        else
          let cap := rest.takeWhile (· ≠ '\n')
          some (String.mk cap, 6 + w.length + cap.length)
    else none
  let fromPrefix : Option Nat :=
    if cs.take 4 = "from".toList then
      let r := cs.drop 4
      let w1 := r.takeWhile isPySpace
      if w1.isEmpty then none
      else
        let r2 := r.drop w1.length
        let x := r2.takeWhile (fun c => !isPySpace c)
        if x.isEmpty then none
        else
          let r3 := r2.drop x.length
          let w2 := r3.takeWhile isPySpace
          if w2.isEmpty then none
          else some (4 + w1.length + x.length + w2.length)
    else none
  match fromPrefix with
  | some n =>
    match tryImport (cs.drop n) with
    | some (cap, m) => some (cap, n + m)
    | none => tryImport cs
  | none => tryImport cs

/-- The keywords whose presence anywhere in the lower-cased content flips a
Python file's classification to `"test"`. -/
def pyTestKeywords : List String := ["test", "assert", "unittest", "pytest"]

/-- Embeds `CodebaseAnalyzer._analyze_python_file`. -/
def _analyze_python_file (content : String) : ExtractInfo :=
  let cs := content.toList
  { type :=
      if pyTestKeywords.any
          (fun kw => containsSub kw.toList (lower content).toList) then "test"
      else "source"
    imports := (anchorScan pyImportMatchAt cs true).map
      (fun s => String.mk (strip s.toList))
    classes := anchorScan (declMatchAt "class".toList) cs true
    functions := anchorScan (declMatchAt "def".toList) cs true }

/-! ### `CodebaseAnalyzer._analyze_javascript_file` -/

/-- One attempt of `(?:import|require)\s*\(['"]([^'"]+)['"]\)`: each step is
deterministic (`\s*` is followed by `(`, which is never whitespace, and
`[^'"]+` is followed by a quote, which it can never consume). -/
def jsCallImportAt : MatchAt := fun cs =>
  let kwLen : Option Nat :=
    if cs.take 6 = "import".toList then some 6
    else if cs.take 7 = "require".toList then some 7
    else none
  match kwLen with
  | none => none
  | some k =>
    let r := cs.drop k
    let w := r.takeWhile isPySpace
    let r2 := r.drop w.length
    match r2 with
    | '(' :: r3 =>
      match r3 with
      | q :: r4 =>
        if q = '\'' ∨ q = '"' then
          let body := r4.takeWhile (fun c => c ≠ '\'' && c ≠ '"')
          if body.isEmpty then none
          else
            match r4.drop body.length with
            | _ :: ')' :: _ =>
              some (String.mk body, k + w.length + 3 + body.length + 1)
            | _ => none
        else none
      | [] => none
    | _ => none

/-- Is the gap `G` between `import` and a `from` splittable as
`\s+` `.+` `\s+` — a non-empty whitespace prefix, a non-empty middle without
newlines, and a non-empty whitespace suffix? -/
def importGapOk (G : List Char) : Bool :=
  (List.range (G.length + 1)).any fun a =>
    (List.range (G.length + 1)).any fun b =>
      1 ≤ a && a < b && b < G.length &&
        (G.take a).all isPySpace &&
        ((G.drop a).take (b - a)).all (· ≠ '\n') &&
        (G.drop b).all isPySpace

/-- One attempt of `import\s+.+\s+from\s+['"]([^'"]+)['"]`: after `import`,
the greedy `.+` selects the rightmost occurrence of
`from\s+['"]([^'"]+)['"]` whose preceding gap admits a
`\s+`/`.+`/`\s+` split (`importGapOk`); the trailing pieces after `from` are
deterministic as in `jsCallImportAt`. -/
def jsFromImportAt : MatchAt := fun cs =>
  if cs.take 6 = "import".toList then
    let r := cs.drop 6
    let tryFrom : Nat → Option (String × Nat) := fun j =>
      if (r.drop j).take 4 = "from".toList ∧ importGapOk (r.take j) then
        let t := r.drop (j + 4)
        let w := t.takeWhile isPySpace
        if w.isEmpty then none
        else
          match t.drop w.length with
          | q :: t2 =>
            if q = '\'' ∨ q = '"' then
              let body := t2.takeWhile (fun c => c ≠ '\'' && c ≠ '"')
              if body.isEmpty then none
              else
                match t2.drop body.length with
                | _ :: _ =>
                  some (String.mk body,
                    6 + j + 4 + w.length + 1 + body.length + 1)
                | [] => none
            else none
          | [] => none
      else none
    ((List.range r.length).reverse.filterMap tryFrom).head?
  else none

/-- One attempt of
`(?:function\s+(\w+)|(\w+)\s*=\s*(?:async\s+)?(?:function|\([^)]*\)\s*=>))`:
the named-function alternative is tried first; in the assignment alternative
every greedy piece is followed by a character it can never consume, so no
backtracking arises, except for the optional `async\s+`, which is tried and
then abandoned when the function-or-arrow tail fails. -/
def jsFunctionAt : MatchAt := fun cs =>
  let tail : List Char → Option Nat := fun l =>
    if l.take 8 = "function".toList then some 8
    else
      match l with
      | '(' :: l2 =>
        let inner := l2.takeWhile (· ≠ ')')
        match l2.drop inner.length with
        | ')' :: l3 =>
          let w := l3.takeWhile isPySpace
          if (l3.drop w.length).take 2 = "=>".toList then
            some (1 + inner.length + 1 + w.length + 2)
          else none
        | _ => none
      | _ => none
  let alt1 : Option (String × Nat) :=
    if cs.take 8 = "function".toList then
      let r := cs.drop 8
      let w := r.takeWhile isPySpace
      if w.isEmpty then none
      else
        let cap := (r.drop w.length).takeWhile isWordChar
        if cap.isEmpty then none
        else some (String.mk cap, 8 + w.length + cap.length)
    else none
  let alt2 : Option (String × Nat) :=
    let name := cs.takeWhile isWordChar
    if name.isEmpty then none
    else
      let r := cs.drop name.length
      let w1 := r.takeWhile isPySpace
      match r.drop w1.length with
      | '=' :: r2 =>
        let w2 := r2.takeWhile isPySpace
        let r3 := r2.drop w2.length
        let asyncTail : Option Nat :=
          if r3.take 5 = "async".toList then
            let wa := (r3.drop 5).takeWhile isPySpace
            if wa.isEmpty then none
            else
              match tail ((r3.drop 5).drop wa.length) with
              | some n => some (5 + wa.length + n)
              | none => none
          else none
        let tl :=
          match asyncTail with
          | some n => some n
          | none => tail r3
        match tl with
        | some n =>
          some (String.mk name,
            name.length + w1.length + 1 + w2.length + n)
        | none => none
      | _ => none
  match alt1 with
  | some x => some x
  | none => alt2

/-- The keywords whose presence anywhere in the lower-cased content flips a
JS/TS file's classification to `"test"`. -/
def jsTestKeywords : List String := ["test", "spec", "describe", "it("]

/-- Embeds `CodebaseAnalyzer._analyze_javascript_file`. -/
def _analyze_javascript_file (content : String) : ExtractInfo :=
  let cs := content.toList
  { type :=
      if jsTestKeywords.any
          (fun kw => containsSub kw.toList (lower content).toList) then "test"
      else "source"
    imports := dedupFirst (textScan jsCallImportAt cs ++ textScan jsFromImportAt cs)
    classes := textScan (declMatchAt "class".toList) cs
    functions := textScan jsFunctionAt cs }

/-! ### `CodebaseAnalyzer._analyze_file` -/

/-- A file handed to `_analyze_file`: its path relative to the scan root
(with `/` separators) and its decoded content.  The model assumes the read
itself succeeds; a read failure makes the source return `None` through its
`except` clause, which no claim concerns. -/
structure SrcFile where
  path : String
  content : String
  deriving Repr, DecidableEq

/-- The per-file dictionary `_analyze_file` builds.  Keys that the source
adds only on some branches (`type`, `imports`, `classes`, `functions`) are
`Option`-valued; `none` models the key being absent from the dictionary. -/
structure FileInfo where
  path : String
  name : String
  extension : String
  language : String
  size : Nat
  lines : Nat
  content : String
  type : Option String := none
  imports : Option (List String) := none
  classes : Option (List String) := none
  functions : Option (List String) := none
  deriving Repr, DecidableEq

/-- Embeds `CodebaseAnalyzer._analyze_file`: skip files whose content exceeds
100,000 characters, otherwise build the record and enrich it per extension. -/
def _analyze_file (f : SrcFile) : Option FileInfo :=
  if 100000 < f.content.length then none
  else
    let name := baseName f.path
    let ext := lower (pathSuffix f.path)
    let base : FileInfo :=
      { path := f.path, name := name, extension := ext,
        language := (SUPPORTED_EXTENSIONS.lookup ext).getD "unknown",
        size := f.content.length, lines := numLines f.content,
        content := f.content }
    some <|
      if ext = ".py" then
        let i := _analyze_python_file f.content
        { base with type := some i.type, imports := some i.imports,
                    classes := some i.classes, functions := some i.functions }
      else if ext = ".js" ∨ ext = ".ts" ∨ ext = ".jsx" ∨ ext = ".tsx" then
        let i := _analyze_javascript_file f.content
        { base with type := some i.type, imports := some i.imports,
                    classes := some i.classes, functions := some i.functions }
      else if ext = ".md" then { base with type := some "documentation" }
      else if ext = ".yml" ∨ ext = ".yaml" ∨ ext = ".json" ∨ ext = ".toml" then
        { base with type := some "configuration" }
      else base

/-! ### File-system model, `_get_directory_structure` and `_get_code_files` -/

/-- One entry of a directory: a file or a subdirectory with its children.
Children are listed in the sorted order the source iterates them
(`sorted(path.iterdir())`); entry order within a directory only affects the
order of the tree's keys, which no claim depends on. -/
inductive FSEntry where
  | file (name : String) : FSEntry
  | dir (name : String) (children : List FSEntry) : FSEntry
  deriving Repr

/-- The name of an entry. -/
def FSEntry.name : FSEntry → String
  | .file n => n
  | .dir n _ => n

/-- A node of the nested dictionary `_get_directory_structure` returns:
either the leaf string `'file'` or a nested dictionary, modelled as an
association list. -/
inductive TreeNode where
  | file : TreeNode
  | dir (entries : List (String × TreeNode)) : TreeNode
  deriving Repr

/-- Embeds `str(item.relative_to(self.root_path))` for an item named `n` inside the
directory with relative path `rel` (`""` for the root). -/
def joinRel (rel n : String) : String :=
  if rel = "" then n else rel ++ "/" ++ n

mutual

/-- The loop of `build_tree` over a directory's (sorted) items: each item
contributes its entry, excluded items contribute nothing. -/
def buildTreeList (rules : List GRule) (maxDepth curDepth : Nat) (rel : String) :
    List FSEntry → List (String × TreeNode)
  | [] => []
  | e :: rest =>
    buildTreeEntry rules maxDepth curDepth rel e ++
      buildTreeList rules maxDepth curDepth rel rest

/-- One item's contribution: a non-excluded item yields one key (directories
get a trailing `/` and a recursively built subtree, cut off to `{}` once
`current_depth >= max_depth`); an item whose relative path matches the rules
is skipped entirely, so its contents are never visited. -/
def buildTreeEntry (rules : List GRule) (maxDepth curDepth : Nat) (rel : String) :
    FSEntry → List (String × TreeNode)
  | .file n =>
    if matchFile rules (joinRel rel n) then [] else [(n, TreeNode.file)]
  | .dir n children =>
    if matchFile rules (joinRel rel n) then []
    else
      [(n ++ "/", TreeNode.dir
        (if maxDepth ≤ curDepth + 1 then []
         else buildTreeList rules maxDepth (curDepth + 1) (joinRel rel n) children))]

end

/-- Embeds `CodebaseAnalyzer._get_directory_structure` (`build_tree(self.root_path)`
with `max_depth = 3`, `current_depth = 0`). -/
def _get_directory_structure (rules : List GRule) (root : List FSEntry) :
    List (String × TreeNode) :=
  buildTreeList rules 3 0 "" root

mutual

/-- The relative paths of the files below one entry, depth first, as
`Path.rglob('*')` yields them. -/
def rglobEntry (rel : String) : FSEntry → List String
  | .file n => [joinRel rel n]
  | .dir n children => rglobList (joinRel rel n) children

/-- The relative paths of all files below a list of entries. -/
def rglobList (rel : String) : List FSEntry → List String
  | [] => []
  | e :: rest => rglobEntry rel e ++ rglobList rel rest

end

/-- Embeds `CodebaseAnalyzer._get_code_files`: every file under the root whose
relative path is not excluded and whose lower-cased suffix is a key of
`SUPPORTED_EXTENSIONS`. -/
def _get_code_files (rules : List GRule) (root : List FSEntry) : List String :=
  (rglobList "" root).filter fun p =>
    !matchFile rules p &&
      (SUPPORTED_EXTENSIONS.lookup (lower (pathSuffix p))).isSome

/-! ### `CodebaseAnalyzer._get_readme_content` -/

/-- The fixed candidate names tried in order. -/
def readmeCandidates : List String :=
  ["README.md", "README.rst", "README.txt", "README"]

/-- The loop body of `_get_readme_content` over a candidate list:
`exists` says whether a file of that name is present at the root, `read`
returns its decoded text or `none` when reading/decoding raises.  A
candidate that exists and reads successfully is returned; on a read
failure the loop logs a warning and falls through to the NEXT candidate. -/
def readmeLoop (ex : String → Bool) (read : String → Option String) :
    List String → Option String
  | [] => none
  | name :: rest =>
    if ex name then
      match read name with
      | some text => some text
      | none => readmeLoop ex read rest
    else readmeLoop ex read rest

/-- Embeds `CodebaseAnalyzer._get_readme_content`. -/
def _get_readme_content (ex : String → Bool) (read : String → Option String) :
    Option String :=
  readmeLoop ex read readmeCandidates

/-! ### `CodebaseAnalyzer._get_config_files` -/

/-- One collected configuration-file entry. -/
structure ConfigEntry where
  name : String
  path : String
  content : String
  deriving Repr, DecidableEq

/-- The fixed glob pattern list of `_get_config_files`. -/
def configPatterns : List String :=
  ["*.yml", "*.yaml", "*.json", "*.toml", "*.ini", "*.cfg",
   "Dockerfile", "docker-compose.yml", "Makefile", ".env*"]

/-- Embeds `Path.glob(pattern)` name matching for the single-segment patterns above:
`fnmatch`-style matching of the whole name (`pathlib` does not special-case
dot-files). -/
def globName (pattern name : String) : Bool :=
  segMatch pattern.toList name.toList

/-- Embeds `CodebaseAnalyzer._get_config_files` over the root-level files, each a
`(name, content)` pair (the `is_file()` check drops directories, so only
files appear here; `glob` enumeration order is OS-dependent and the model
uses the given list order).  For each pattern, every matching file yields an
entry whose content is truncated to its first 1000 characters; nothing
deduplicates a file matching several patterns. -/
def _get_config_files (rootFiles : List (String × String)) : List ConfigEntry :=
  configPatterns.flatMap fun pattern =>
    (rootFiles.filter fun f => globName pattern f.1).map fun f =>
      { name := f.1, path := f.1, content := String.mk (f.2.toList.take 1000) }

/-! ### `DocumentationGenerator._get_key_files` -/

/-- Python's `'kw' in f['name'].lower()`. -/
def nameContains (f : FileInfo) (kw : String) : Bool :=
  containsSub kw.toList (lower f.name).toList

/-- The fixed cascade of ten priority predicates, in their evaluation order.
The last two test the truthiness of `f.get('classes', [])` and
`f.get('functions', [])`: a non-empty list. -/
def keyPriorities : List (FileInfo → Bool) :=
  [fun f => nameContains f "main",
   fun f => nameContains f "app",
   fun f => nameContains f "server",
   fun f => nameContains f "client",
   fun f => nameContains f "api",
   fun f => nameContains f "model",
   fun f => nameContains f "controller",
   fun f => nameContains f "service",
   fun f => !(f.classes.getD []).isEmpty,
   fun f => !(f.functions.getD []).isEmpty]

/-- The in-loop deduplication
`[f for f in key_files if f['path'] not in seen and not seen.add(f['path'])]`:
keep the first occurrence of each path, given the paths already seen. -/
def dedupeByPath (seen : List String) : List FileInfo → List FileInfo
  | [] => []
  | f :: rest =>
    if f.path ∈ seen then dedupeByPath seen rest
    else f :: dedupeByPath (f.path :: seen) rest

/-- One iteration of the priority loop: append all files matching the
predicate, then deduplicate the accumulated list by path. -/
def keyStep (files : List FileInfo) (acc : List FileInfo)
    (p : FileInfo → Bool) : List FileInfo :=
  dedupeByPath [] (acc ++ files.filter p)

/-- Embeds `DocumentationGenerator._get_key_files`. -/
def _get_key_files (files : List FileInfo) : List FileInfo :=
  keyPriorities.foldl (keyStep files) []

/-- Embeds `file_info.get('type', 'unknown')`, the classification read-out the
generator uses when summarising key files (generator.py line 112). -/
def summaryType (f : FileInfo) : String :=
  f.type.getD "unknown"

/-- A concrete record named `main.py` with no declared classes or
functions (used to instantiate the selector-ordering theorem). -/
def exA : FileInfo :=
  { path := "main.py", name := "main.py", extension := ".py",
    language := "python", size := 0, lines := 0, content := "",
    type := some "source", imports := some [], classes := some [],
    functions := some [] }

/-- A concrete record named `foo.py` with one declared class and a name
matching none of the eight name predicates. -/
def exB : FileInfo :=
  { path := "foo.py", name := "foo.py", extension := ".py",
    language := "python", size := 0, lines := 0, content := "",
    type := some "source", imports := some [], classes := some ["C"],
    functions := some [] }

/-! ## Helper lemmas -/

theorem toNat_ofNat_of_upper (n : Nat) (h : n ≤ 122) :
    (Char.ofNat n).toNat = n := by
  have hv : n.isValidChar := Or.inl (by omega)
  simp only [Char.ofNat, Char.toNat]
  rw [dif_pos hv]
  simp [Char.ofNatAux, UInt32.ofNat', UInt32.toNat]

theorem lowerChar_idem (c : Char) : lowerChar (lowerChar c) = lowerChar c := by
  unfold lowerChar
  by_cases h : 65 ≤ c.toNat ∧ c.toNat ≤ 90
  · rw [if_pos h]
    have ht : (Char.ofNat (c.toNat + 32)).toNat = c.toNat + 32 :=
      toNat_ofNat_of_upper _ (by omega)
    rw [if_neg]
    rw [ht]
    omega
  · rw [if_neg h, if_neg h]

theorem lower_idem (s : String) : lower (lower s) = lower s := by
  have h : ((s.toList.map lowerChar).map lowerChar) = s.toList.map lowerChar := by
    rw [List.map_map]
    exact List.map_congr_left fun c _ => lowerChar_idem c
  exact congrArg String.mk h

/-! ## Claim theorems -/

/-- C6: for every extension string `E`, the language lookup is
case-insensitive — looking up `E` and looking up `E` lower-cased give the
same tag — and an extension whose lower-casing is absent from the fixed
table yields the `"unknown"` tag rather than any failure. -/
theorem C6_language_lookup (E : String) :
    language_for E = language_for (lower E) ∧
    ((SUPPORTED_EXTENSIONS.lookup (lower E)).isNone →
      language_for E = "unknown") := by
  constructor
  · unfold language_for
    rw [lower_idem]
  · intro h
    unfold language_for
    rw [Option.isNone_iff_eq_none] at h
    rw [h]
    rfl

/-- Witness for C6 at the concrete extensions `".PY"` (in the table) and
`".xyz"` (absent from it). -/
theorem C6_language_lookup_witness :
    language_for ".PY" = language_for (lower ".PY") ∧
    language_for ".xyz" = "unknown" :=
  ⟨(C6_language_lookup ".PY").1,
   (C6_language_lookup ".xyz").2 (by decide)⟩

/-- C3: for every file, a `FileInfo` record is created when the content
length is exactly 100,000, and none is created (the file is skipped) when
the content length is 100,001 or more. -/
theorem C3_size_boundary (f : SrcFile) :
    (f.content.length = 100000 → (_analyze_file f).isSome) ∧
    (100001 ≤ f.content.length → _analyze_file f = none) := by
  constructor
  · intro h
    unfold _analyze_file
    rw [if_neg (by omega)]
    rfl
  · intro h
    unfold _analyze_file
    rw [if_pos (by omega)]

/-- Witness for C3: concrete files of 100,000 and 100,001 characters. -/
theorem C3_size_boundary_witness :
    (_analyze_file ⟨"big.py", String.mk (List.replicate 100000 'a')⟩).isSome ∧
    _analyze_file ⟨"huge.py", String.mk (List.replicate 100001 'a')⟩ = none :=
  ⟨(C3_size_boundary _).1 (List.length_replicate _ _),
   (C3_size_boundary _).2 (le_of_eq (List.length_replicate _ _).symm)⟩

/-- C2 counterexample: on the content `"class Foo:\n    def bar(self):\n
        pass\n"` the extractor's declared function names are `[]`, not
`["bar"]` as the claim states — the `def` is indented, and the pattern
`^def\s+(\w+)` only matches at line starts. -/
theorem C2_counterexample :
    (_analyze_python_file "class Foo:\n    def bar(self):\n        pass\n").functions
      ≠ ["bar"] := by
  decide

/-- C2 as amended: the extraction yields declared types `["Foo"]` and
declared functions `[]` (the indented `def bar` does not match the
line-anchored `^def\s+(\w+)` pattern). -/
theorem C2_amended :
    (_analyze_python_file "class Foo:\n    def bar(self):\n        pass\n").classes
      = ["Foo"] ∧
    (_analyze_python_file "class Foo:\n    def bar(self):\n        pass\n").functions
      = [] := by
  constructor
  · decide
  · decide

/-- C7 counterexample: when `README.md` exists but fails to read, and
`README.rst` exists and reads as `"rst-content"`, the lookup returns
`"rst-content"` — the later candidate IS consulted and the README is not
reported absent. -/
theorem C7_counterexample :
    _get_readme_content (fun n => n = "README.md" || n = "README.rst")
        (fun n => if n = "README.rst" then some "rst-content" else none)
      = some "rst-content" ∧
    _get_readme_content (fun n => n = "README.md" || n = "README.rst")
        (fun n => if n = "README.rst" then some "rst-content" else none)
      ≠ none := by
  constructor
  · rfl
  · decide

theorem readmeLoop_eq_findSome (ex : String → Bool) (read : String → Option String) :
    ∀ l : List String,
      readmeLoop ex read l = l.findSome? fun n => if ex n then read n else none := by
  intro l
  induction l with
  | nil => rfl
  | cons n rest ih =>
    unfold readmeLoop
    rw [List.findSome?_cons]
    by_cases h : ex n
    · simp only [h, if_true]
      cases read n with
      | some t => rfl
      | none => exact ih
    · simp only [h, Bool.false_eq_true, if_false]
      exact ih

/-- C7 as amended: the README lookup returns the content of the first
candidate in the fixed priority list that both exists and reads
successfully; a read failure of an earlier existing candidate falls through
to the next candidate, and the README is absent only when no existing
candidate reads successfully. -/
theorem C7_amended (ex : String → Bool) (read : String → Option String) :
    _get_readme_content ex read =
      readmeCandidates.findSome? fun n => if ex n then read n else none :=
  readmeLoop_eq_findSome ex read readmeCandidates

/-- C8 counterexample: a `.go` file's record carries NO classification tag
(the `type` key is absent, modelled as `none`), not the tag `"source"`; where
the generator reads the tag it defaults the absent key to `"unknown"`. -/
theorem C8_counterexample :
    Option.map FileInfo.type (_analyze_file ⟨"a.go", "x"⟩) = some none ∧
    Option.map FileInfo.type (_analyze_file ⟨"a.go", "x"⟩) ≠ some (some "source") ∧
    Option.map summaryType (_analyze_file ⟨"a.go", "x"⟩) = some "unknown" := by
  refine ⟨by decide, by decide, by decide⟩

/-- C8 as amended: for every file under the size threshold whose lower-cased
extension is neither a Python/JS/TS family extension nor `.md` nor a
configuration extension, a record is created whose `type` key is absent
(`none`); the generator's read-out of the missing key defaults to
`"unknown"`, not `"source"`. -/
theorem C8_no_type_tag (f : SrcFile) (h1 : f.content.length ≤ 100000)
    (h2 : lower (pathSuffix f.path) ∉
      ([".py", ".js", ".ts", ".jsx", ".tsx", ".md",
        ".yml", ".yaml", ".json", ".toml"] : List String)) :
    ∃ fi, _analyze_file f = some fi ∧ fi.type = none ∧ summaryType fi = "unknown" := by
  simp only [List.mem_cons, List.not_mem_nil, or_false, not_or] at h2
  obtain ⟨hpy, hjs, hts, hjsx, htsx, hmd, hyml, hyaml, hjson, htoml⟩ := h2
  unfold _analyze_file
  rw [if_neg (by omega)]
  simp only [hpy, hjs, hts, hjsx, htsx, hmd, hyml, hyaml, hjson, htoml,
    if_false, or_self, or_false, false_or, ite_false]
  exact ⟨_, rfl, rfl, rfl⟩

/-- Witness for C8's amended theorem at the concrete file `a.go`. -/
theorem C8_no_type_tag_witness :
    ∃ fi, _analyze_file ⟨"a.go", "x"⟩ = some fi ∧ fi.type = none ∧
      summaryType fi = "unknown" :=
  C8_no_type_tag ⟨"a.go", "x"⟩ (by decide) (by decide)

theorem foldl_lastmatch_all_inc (p : String) (rules : List GRule)
    (h : ∀ r ∈ rules, r.inc = true) (b : Bool) :
    rules.foldl (fun acc r => if gmatch r p then r.inc else acc) b =
      (b || rules.any fun r => gmatch r p) := by
  induction rules generalizing b with
  | nil => simp
  | cons r rs ih =>
    simp only [List.foldl_cons, List.any_cons]
    rw [ih (fun x hx => h x (List.mem_cons_of_mem _ hx))]
    by_cases hg : gmatch r p
    · simp [hg, h r (List.mem_cons_self _ _)]
    · simp [hg]

/-- C1 counterexample: with the user-supplied rule `!special.xyz` (a
negation pattern, accepted by `gitwildmatch`), at least one rule of the
constructed set matches the path `special.xyz`, yet `is_excluded` is false —
refuting "is_excluded(P) is true iff at least one rule matches P". -/
theorem C1_counterexample :
    ((analyzerRules ["!special.xyz"] false).any
        fun r => gmatch r "special.xyz") = true ∧
    is_excluded ["!special.xyz"] false "special.xyz" = false := by
  constructor
  · decide
  · decide

/-- C1 as amended: when every rule of the set is an include rule (no
`!`-negated pattern — true of all default and conditional test rules,
negations can only come from user-supplied patterns), `is_excluded` is true
iff at least one rule matches, and any permutation of the rule set leaves
its value unchanged.  With a user-supplied negation rule both properties can
fail, because `pathspec` gives the last matching pattern's include flag. -/
theorem C1_amended (rules : List GRule) (p : String)
    (hpos : ∀ r ∈ rules, r.inc = true) :
    (matchFile rules p = (rules.any fun r => gmatch r p)) ∧
    ∀ rules', rules.Perm rules' → matchFile rules p = matchFile rules' p := by
  have hany : matchFile rules p = (rules.any fun r => gmatch r p) := by
    unfold matchFile
    rw [foldl_lastmatch_all_inc p rules hpos false, Bool.false_or]
  refine ⟨hany, fun rules' hperm => ?_⟩
  have hpos' : ∀ r ∈ rules', r.inc = true :=
    fun r hr => hpos r (hperm.mem_iff.mpr hr)
  have hany' : matchFile rules' p = (rules'.any fun r => gmatch r p) := by
    unfold matchFile
    rw [foldl_lastmatch_all_inc p rules' hpos' false, Bool.false_or]
  rw [hany, hany']
  have hiff : ((rules.any fun r => gmatch r p) = true) ↔
      ((rules'.any fun r => gmatch r p) = true) := by
    simp only [List.any_eq_true]
    constructor
    · rintro ⟨r, hr, hg⟩
      exact ⟨r, hperm.mem_iff.mp hr, hg⟩
    · rintro ⟨r, hr, hg⟩
      exact ⟨r, hperm.mem_iff.mpr hr, hg⟩
  cases ha : (rules.any fun r => gmatch r p) <;>
    cases hb : (rules'.any fun r => gmatch r p)
  · rfl
  · rw [ha, hb] at hiff
    simp at hiff
  · rw [ha, hb] at hiff
    simp at hiff
  · rfl

/-- Witness for C1's amended theorem: the analyzer's actual rule set (no
user patterns, tests excluded) is all-include; instantiated at the path
`node_modules/x` and at the reversal of the rule list as a permutation. -/
theorem C1_amended_witness :
    (matchFile (analyzerRules [] false) "node_modules/x" =
      ((analyzerRules [] false).any fun r => gmatch r "node_modules/x")) ∧
    matchFile (analyzerRules [] false) "node_modules/x" =
      matchFile (analyzerRules [] false).reverse "node_modules/x" :=
  ⟨(C1_amended (analyzerRules [] false) "node_modules/x" (by decide)).1,
   (C1_amended (analyzerRules [] false) "node_modules/x" (by decide)).2
     (analyzerRules [] false).reverse (List.reverse_perm _).symm⟩

theorem buildTreeList_keys (rules : List GRule) (maxDepth curDepth : Nat)
    (rel : String) (items : List FSEntry) :
    (buildTreeList rules maxDepth curDepth rel items).map Prod.fst =
      (items.filter fun e => !matchFile rules (joinRel rel e.name)).map
        (fun e => match e with | .file n => n | .dir n _ => n ++ "/") := by
  induction items with
  | nil => rfl
  | cons e rest ih =>
    cases e with
    | file n =>
      by_cases h : matchFile rules (joinRel rel n)
      · simp [buildTreeList, buildTreeEntry, FSEntry.name, h, ih]
      · simp [buildTreeList, buildTreeEntry, FSEntry.name, h, ih]
    | dir n cs =>
      by_cases h : matchFile rules (joinRel rel n)
      · simp [buildTreeList, buildTreeEntry, FSEntry.name, h, ih]
      · simp [buildTreeList, buildTreeEntry, FSEntry.name, h, ih]

/-- C5: the tree builder records a key only for items whose relative path
does not match the exclusion rules (so the contents of a matching path are
never enumerated), and concretely, for a scan root containing
`node_modules/pkg/index.js` under the default rules, the resulting tree maps
`node_modules/` to an empty subtree — neither `pkg` nor `index.js` appears. -/
theorem C5_tree_exclusion :
    (∀ (rules : List GRule) (maxDepth curDepth : Nat) (rel : String)
        (items : List FSEntry),
      (buildTreeList rules maxDepth curDepth rel items).map Prod.fst =
        (items.filter fun e => !matchFile rules (joinRel rel e.name)).map
          (fun e => match e with | .file n => n | .dir n _ => n ++ "/")) ∧
    _get_directory_structure (analyzerRules [] true)
        [.dir "node_modules" [.dir "pkg" [.file "index.js"]]] =
      [("node_modules/", TreeNode.dir [])] :=
  ⟨buildTreeList_keys, rfl⟩

/-- C10: the path `.env` matches a default exclusion rule (`.env*`), so it is
excluded from FileRecord creation (`_get_code_files` skips it) and from the
DirectoryTree, yet configuration-file collection — which never consults the
rule set — still yields an entry for it holding the first 1000 characters of
its content. -/
theorem C10_config_ignores_exclusions (content : String) :
    is_excluded [] true ".env" = true ∧
    _get_config_files [(".env", content)] =
      [{ name := ".env", path := ".env",
         content := String.mk (content.toList.take 1000) }] ∧
    _get_code_files (analyzerRules [] true) [FSEntry.file ".env"] = [] ∧
    _get_directory_structure (analyzerRules [] true) [FSEntry.file ".env"] = [] := by
  refine ⟨by decide, ?_, by decide, rfl⟩
  have h1 : globName "*.yml" ".env" = false := by decide
  have h2 : globName "*.yaml" ".env" = false := by decide
  have h3 : globName "*.json" ".env" = false := by decide
  have h4 : globName "*.toml" ".env" = false := by decide
  have h5 : globName "*.ini" ".env" = false := by decide
  have h6 : globName "*.cfg" ".env" = false := by decide
  have h7 : globName "Dockerfile" ".env" = false := by decide
  have h8 : globName "docker-compose.yml" ".env" = false := by decide
  have h9 : globName "Makefile" ".env" = false := by decide
  have h10 : globName ".env*" ".env" = true := by decide
  simp [_get_config_files, configPatterns, h1, h2, h3, h4, h5, h6, h7, h8,
    h9, h10]

/-- C9 counterexample: a root-level `docker-compose.yml` matches both the
`*.yml` pattern and the literal `docker-compose.yml` pattern and yields TWO
`ConfigFileEntry` records, refuting "no file yields two entries even when it
matches more than one pattern". -/
theorem C9_counterexample :
    (_get_config_files [("docker-compose.yml", "x")]).map ConfigEntry.path =
      ["docker-compose.yml", "docker-compose.yml"] := by
  decide

theorem countP_fst_eq_one (rootFiles : List (String × String))
    (hnodup : (rootFiles.map Prod.fst).Nodup) (n c : String)
    (hmem : (n, c) ∈ rootFiles) :
    rootFiles.countP (fun f => f.1 = n) = 1 := by
  have h1 : (rootFiles.map Prod.fst).count n = 1 :=
    List.count_eq_one_of_mem hnodup (List.mem_map_of_mem _ hmem)
  rw [List.count, List.countP_map] at h1
  rw [← h1]
  exact List.countP_congr fun f _ => by simp [Function.comp]

theorem countP_config_flatMap (pats : List String)
    (rootFiles : List (String × String)) (n : String)
    (hcount : rootFiles.countP (fun f => f.1 = n) = 1) :
    ((pats.flatMap fun pattern =>
        (rootFiles.filter fun f => globName pattern f.1).map fun f =>
          ({ name := f.1, path := f.1,
             content := String.mk (f.2.toList.take 1000) } : ConfigEntry)).countP
        fun e => e.path = n) =
      pats.countP fun p => globName p n := by
  induction pats with
  | nil => rfl
  | cons p ps ih =>
    rw [List.flatMap_cons, List.countP_append, ih, List.countP_cons]
    rw [Nat.add_comm]
    congr 1
    rw [List.countP_map, List.countP_filter]
    by_cases hg : globName p n = true
    · rw [if_pos hg, ← hcount]
      apply List.countP_congr
      intro f _
      simp only [Function.comp, Bool.and_eq_true, decide_eq_true_iff]
      constructor
      · rintro ⟨he, _⟩
        exact he
      · intro he
        refine ⟨he, ?_⟩
        rw [he]
        exact hg
    · rw [if_neg hg, List.countP_eq_zero]
      intro f _
      simp only [Function.comp, Bool.and_eq_true, decide_eq_true_iff, not_and]
      intro he hgf
      rw [he] at hgf
      exact hg hgf

/-- C9 as amended: configuration-file collection yields one entry per
(pattern, matching root-level file) pair — a file matching `k` patterns
yields `k` entries, so the entry count for a file equals the number of
patterns matching its name — and every entry's content is a prefix of its
file's content, of at most 1000 characters. -/
theorem C9_entries_per_pattern (rootFiles : List (String × String))
    (hnodup : (rootFiles.map Prod.fst).Nodup) (n c : String)
    (hmem : (n, c) ∈ rootFiles) :
    ((_get_config_files rootFiles).countP fun e => e.path = n) =
      (configPatterns.countP fun p => globName p n) ∧
    ∀ e ∈ _get_config_files rootFiles, ∃ d, (e.name, d) ∈ rootFiles ∧
      e.content.toList = d.toList.take 1000 ∧ e.content.length ≤ 1000 ∧
      e.content.toList <+: d.toList := by
  constructor
  · exact countP_config_flatMap configPatterns rootFiles n
      (countP_fst_eq_one rootFiles hnodup n c hmem)
  · intro e he
    unfold _get_config_files at he
    rw [List.mem_flatMap] at he
    obtain ⟨pattern, _, hmem2⟩ := he
    rw [List.mem_map] at hmem2
    obtain ⟨f, hf, rfl⟩ := hmem2
    refine ⟨f.2, List.mem_filter.mp hf |>.1, rfl, ?_, ?_⟩
    · exact List.length_take_le _ _
    · exact List.take_prefix _ _

/-- Witness for C9's amended theorem at a root holding one file,
`docker-compose.yml`, which matches two patterns. -/
theorem C9_entries_per_pattern_witness :
    ((_get_config_files [("docker-compose.yml", "services:")]).countP
        fun e => e.path = "docker-compose.yml") =
      (configPatterns.countP fun p => globName p "docker-compose.yml") ∧
    ∀ e ∈ _get_config_files [("docker-compose.yml", "services:")],
      ∃ d, (e.name, d) ∈ [("docker-compose.yml", "services:")] ∧
        e.content.toList = d.toList.take 1000 ∧ e.content.length ≤ 1000 ∧
        e.content.toList <+: d.toList :=
  C9_entries_per_pattern [("docker-compose.yml", "services:")] (by decide)
    "docker-compose.yml" "services:" (by decide)

theorem dedupeByPath_congr (seen seen' : List String)
    (h : ∀ x, x ∈ seen ↔ x ∈ seen') (l : List FileInfo) :
    dedupeByPath seen l = dedupeByPath seen' l := by
  induction l generalizing seen seen' with
  | nil => rfl
  | cons f rest ih =>
    unfold dedupeByPath
    by_cases hf : f.path ∈ seen
    · rw [if_pos hf, if_pos ((h _).mp hf)]
      exact ih _ _ h
    · rw [if_neg hf, if_neg (fun c => hf ((h _).mpr c))]
      congr 1
      exact ih _ _ (fun x => by simp only [List.mem_cons]; rw [h x])

theorem mem_paths_dedupeByPath (seen : List String) (l : List FileInfo)
    (x : String) :
    x ∈ (dedupeByPath seen l).map FileInfo.path ↔
      x ∈ l.map FileInfo.path ∧ x ∉ seen := by
  induction l generalizing seen with
  | nil => simp [dedupeByPath]
  | cons f rest ih =>
    unfold dedupeByPath
    by_cases hf : f.path ∈ seen
    · rw [if_pos hf, ih]
      simp only [List.map_cons, List.mem_cons]
      constructor
      · rintro ⟨hx, hs⟩
        exact ⟨Or.inr hx, hs⟩
      · rintro ⟨hx | hx, hs⟩
        · exact absurd (hx ▸ hf) hs
        · exact ⟨hx, hs⟩
    · rw [if_neg hf]
      simp only [List.map_cons, List.mem_cons, ih, List.mem_cons]
      constructor
      · rintro (rfl | ⟨hx, hs⟩)
        · exact ⟨Or.inl rfl, hf⟩
        · exact ⟨Or.inr hx, fun c => hs (Or.inr c)⟩
      · rintro ⟨rfl | hx, hs⟩
        · exact Or.inl rfl
        · by_cases hxf : x = f.path
          · exact Or.inl hxf
          · exact Or.inr ⟨hx, fun c => (by
              rcases c with c | c
              · exact hxf c
              · exact hs c)⟩

theorem nodup_paths_dedupeByPath (seen : List String) (l : List FileInfo) :
    ((dedupeByPath seen l).map FileInfo.path).Nodup := by
  induction l generalizing seen with
  | nil => simp [dedupeByPath]
  | cons f rest ih =>
    unfold dedupeByPath
    by_cases hf : f.path ∈ seen
    · rw [if_pos hf]
      exact ih _
    · rw [if_neg hf]
      simp only [List.map_cons, List.nodup_cons]
      refine ⟨fun c => ?_, ih _⟩
      rw [mem_paths_dedupeByPath] at c
      exact c.2 (List.mem_cons_self _ _)

theorem dedupeByPath_eq_self (seen : List String) (l : List FileInfo)
    (hnd : (l.map FileInfo.path).Nodup)
    (hdisj : ∀ x ∈ l.map FileInfo.path, x ∉ seen) :
    dedupeByPath seen l = l := by
  induction l generalizing seen with
  | nil => rfl
  | cons f rest ih =>
    simp only [List.map_cons, List.nodup_cons] at hnd
    unfold dedupeByPath
    rw [if_neg (hdisj f.path (by simp))]
    congr 1
    apply ih _ hnd.2
    intro x hx
    simp only [List.mem_cons]
    rintro (rfl | hs)
    · exact hnd.1 hx
    · exact hdisj x (by simp [hx]) hs

theorem dedupeByPath_cons_pos (seen : List String) (f : FileInfo)
    (l : List FileInfo) (h : f.path ∈ seen) :
    dedupeByPath seen (f :: l) = dedupeByPath seen l := by
  conv_lhs => unfold dedupeByPath
  rw [if_pos h]

theorem dedupeByPath_cons_neg (seen : List String) (f : FileInfo)
    (l : List FileInfo) (h : f.path ∉ seen) :
    dedupeByPath seen (f :: l) = f :: dedupeByPath (f.path :: seen) l := by
  conv_lhs => unfold dedupeByPath
  rw [if_neg h]

theorem dedupeByPath_append (seen : List String) (xs ys : List FileInfo) :
    dedupeByPath seen (xs ++ ys) =
      dedupeByPath seen xs ++
        dedupeByPath ((dedupeByPath seen xs).map FileInfo.path ++ seen) ys := by
  induction xs generalizing seen with
  | nil =>
    simp only [List.nil_append, dedupeByPath, List.map_nil]
  | cons f rest ih =>
    simp only [List.cons_append]
    by_cases hf : f.path ∈ seen
    · rw [dedupeByPath_cons_pos _ _ _ hf, dedupeByPath_cons_pos _ _ _ hf, ih]
    · rw [dedupeByPath_cons_neg _ _ _ hf, dedupeByPath_cons_neg _ _ _ hf,
        ih (f.path :: seen)]
      simp only [List.map_cons, List.cons_append]
      congr 2
      apply dedupeByPath_congr
      intro x
      simp only [List.mem_append, List.mem_cons]
      tauto

theorem keyStep_eq_append (files acc : List FileInfo) (p : FileInfo → Bool)
    (hnd : (acc.map FileInfo.path).Nodup) :
    keyStep files acc p =
      acc ++ dedupeByPath (acc.map FileInfo.path) (files.filter p) := by
  unfold keyStep
  rw [dedupeByPath_append, dedupeByPath_eq_self [] acc hnd (by simp)]
  congr 1
  apply dedupeByPath_congr
  intro x
  simp

theorem nodup_paths_keyStep (files acc : List FileInfo) (p : FileInfo → Bool) :
    ((keyStep files acc p).map FileInfo.path).Nodup :=
  nodup_paths_dedupeByPath _ _

theorem foldl_keyStep_extends (files : List FileInfo)
    (ps : List (FileInfo → Bool)) (acc : List FileInfo)
    (hnd : (acc.map FileInfo.path).Nodup) :
    ∃ t, ps.foldl (keyStep files) acc = acc ++ t := by
  induction ps generalizing acc with
  | nil => exact ⟨[], by simp⟩
  | cons p ps ih =>
    rw [List.foldl_cons]
    obtain ⟨t, ht⟩ := ih (keyStep files acc p) (nodup_paths_keyStep _ _ _)
    rw [ht, keyStep_eq_append files acc p hnd, List.append_assoc]
    exact ⟨_, rfl⟩

theorem nodup_paths_foldl_keyStep (files : List FileInfo)
    (ps : List (FileInfo → Bool)) (acc : List FileInfo)
    (hnd : (acc.map FileInfo.path).Nodup) :
    (((ps.foldl (keyStep files) acc)).map FileInfo.path).Nodup := by
  induction ps generalizing acc with
  | nil => exact hnd
  | cons p ps ih =>
    rw [List.foldl_cons]
    exact ih _ (nodup_paths_keyStep _ _ _)

theorem mem_paths_foldl_keyStep (files : List FileInfo)
    (ps : List (FileInfo → Bool)) (acc : List FileInfo) (x : String) :
    x ∈ (ps.foldl (keyStep files) acc).map FileInfo.path ↔
      x ∈ acc.map FileInfo.path ∨
        ∃ p ∈ ps, ∃ f ∈ files, p f = true ∧ f.path = x := by
  induction ps generalizing acc with
  | nil => simp
  | cons p ps ih =>
    rw [List.foldl_cons, ih]
    have hstep : x ∈ (keyStep files acc p).map FileInfo.path ↔
        x ∈ acc.map FileInfo.path ∨
          ∃ f ∈ files, p f = true ∧ f.path = x := by
      unfold keyStep
      rw [mem_paths_dedupeByPath]
      simp only [List.map_append, List.mem_append, List.not_mem_nil,
        not_false_iff, and_true, List.mem_map, List.mem_filter]
      constructor
      · rintro (hx | ⟨f, ⟨hf, hp⟩, he⟩)
        · exact Or.inl hx
        · exact Or.inr ⟨f, hf, hp, he⟩
      · rintro (hx | ⟨f, hf, hp, he⟩)
        · exact Or.inl hx
        · exact Or.inr ⟨f, ⟨hf, hp⟩, he⟩
    rw [hstep]
    simp only [List.mem_cons]
    constructor
    · rintro ((hx | ⟨f, hf, hp, he⟩) | ⟨q, hq, f, hf, hp, he⟩)
      · exact Or.inl hx
      · exact Or.inr ⟨p, Or.inl rfl, f, hf, hp, he⟩
      · exact Or.inr ⟨q, Or.inr hq, f, hf, hp, he⟩
    · rintro (hx | ⟨q, rfl | hq, f, hf, hp, he⟩)
      · exact Or.inl (Or.inl hx)
      · exact Or.inl (Or.inr ⟨f, hf, hp, he⟩)
      · exact Or.inr ⟨q, hq, f, hf, hp, he⟩

theorem foldl_keyStep_order (files : List FileInfo)
    (hnd : (files.map FileInfo.path).Nodup)
    (p : FileInfo → Bool) (ps1 ps2 : List (FileInfo → Bool))
    (q : FileInfo → Bool) (A B : FileInfo) (hA : A ∈ files) (hB : B ∈ files)
    (hpA : p A = true) (hqB : q B = true)
    (hB1 : ∀ r ∈ p :: ps1, r B = false) :
    A.path ∈ (((p :: ps1) ++ (q :: ps2)).foldl (keyStep files) []).map
        FileInfo.path ∧
    B.path ∈ (((p :: ps1) ++ (q :: ps2)).foldl (keyStep files) []).map
        FileInfo.path ∧
    ((((p :: ps1) ++ (q :: ps2)).foldl (keyStep files) []).map
        FileInfo.path).indexOf A.path <
      ((((p :: ps1) ++ (q :: ps2)).foldl (keyStep files) []).map
        FileInfo.path).indexOf B.path := by
  have hfilter_nodup : ((files.filter p).map FileInfo.path).Nodup :=
    hnd.sublist ((files.filter_sublist).map FileInfo.path)
  have hacc1 : keyStep files [] p = files.filter p := by
    unfold keyStep
    rw [List.nil_append]
    exact dedupeByPath_eq_self [] _ hfilter_nodup (by simp)
  obtain ⟨t1, ht1⟩ : ∃ t, (p :: ps1).foldl (keyStep files) [] =
      files.filter p ++ t := by
    rw [List.foldl_cons, hacc1]
    exact foldl_keyStep_extends files ps1 _ hfilter_nodup
  obtain ⟨t2, ht2⟩ : ∃ t, ((p :: ps1) ++ (q :: ps2)).foldl (keyStep files) [] =
      (p :: ps1).foldl (keyStep files) [] ++ t := by
    rw [List.foldl_append]
    exact foldl_keyStep_extends files (q :: ps2) _
      (nodup_paths_foldl_keyStep files _ [] (by simp))
  have hA1 : A.path ∈ ((p :: ps1).foldl (keyStep files) []).map FileInfo.path := by
    rw [ht1, List.map_append]
    exact List.mem_append_left _
      (List.mem_map_of_mem _ (List.mem_filter.mpr ⟨hA, hpA⟩))
  have hBfront : B.path ∉
      ((p :: ps1).foldl (keyStep files) []).map FileInfo.path := by
    intro hmem
    rw [mem_paths_foldl_keyStep] at hmem
    rcases hmem with h0 | ⟨r, hr, f, hf, hrf, hfp⟩
    · simp at h0
    · have hfB : f = B := List.inj_on_of_nodup_map hnd hf hB hfp
      rw [hfB, hB1 r hr] at hrf
      exact Bool.false_ne_true hrf
  have hBmem : B.path ∈
      (((p :: ps1) ++ (q :: ps2)).foldl (keyStep files) []).map FileInfo.path := by
    rw [mem_paths_foldl_keyStep]
    exact Or.inr ⟨q, by simp, B, hB, hqB, rfl⟩
  refine ⟨?_, hBmem, ?_⟩
  · rw [ht2, List.map_append]
    exact List.mem_append_left _ hA1
  · rw [ht2, List.map_append,
      List.indexOf_append_of_mem hA1, List.indexOf_append_of_not_mem hBfront]
    exact Nat.lt_of_lt_of_le (List.indexOf_lt_length.mpr hA1)
      (Nat.le_add_right _ _)

/-- C4: the key-file selector is deterministic (a pure function of its input
sequence), its output never repeats a path, and — for input sequences of
FileRecords, which carry one record per file, hence pairwise distinct
paths — a file whose name contains `"main"` but has no declared types or
functions is placed before a file that has declared types but whose name
matches none of the eight name predicates. -/
theorem C4_key_selector (files : List FileInfo)
    (hnd : (files.map FileInfo.path).Nodup)
    (A B : FileInfo) (hA : A ∈ files) (hB : B ∈ files)
    (hAmain : nameContains A "main" = true)
    (hAcls : A.classes.getD [] = []) (hAfns : A.functions.getD [] = [])
    (hBcls : (B.classes.getD []).isEmpty = false)
    (hBname : ∀ kw ∈ (["main", "app", "server", "client", "api", "model",
        "controller", "service"] : List String), nameContains B kw = false) :
    _get_key_files files = _get_key_files files ∧
    ((_get_key_files files).map FileInfo.path).Nodup ∧
    A.path ∈ (_get_key_files files).map FileInfo.path ∧
    B.path ∈ (_get_key_files files).map FileInfo.path ∧
    ((_get_key_files files).map FileInfo.path).indexOf A.path <
      ((_get_key_files files).map FileInfo.path).indexOf B.path := by
  have horder := foldl_keyStep_order files hnd
    (fun f => nameContains f "main")
    [fun f => nameContains f "app", fun f => nameContains f "server",
     fun f => nameContains f "client", fun f => nameContains f "api",
     fun f => nameContains f "model", fun f => nameContains f "controller",
     fun f => nameContains f "service"]
    [fun f => !(f.functions.getD []).isEmpty]
    (fun f => !(f.classes.getD []).isEmpty)
    A B hA hB hAmain
    (by
      show (!(B.classes.getD []).isEmpty) = true
      rw [hBcls]
      rfl)
    (by
      intro r hr
      simp only [List.mem_cons, List.not_mem_nil, or_false] at hr
      rcases hr with rfl | rfl | rfl | rfl | rfl | rfl | rfl | rfl
      · exact hBname "main" (by simp)
      · exact hBname "app" (by simp)
      · exact hBname "server" (by simp)
      · exact hBname "client" (by simp)
      · exact hBname "api" (by simp)
      · exact hBname "model" (by simp)
      · exact hBname "controller" (by simp)
      · exact hBname "service" (by simp))
  exact ⟨rfl, nodup_paths_foldl_keyStep files keyPriorities [] (by simp),
    horder.1, horder.2.1, horder.2.2⟩

/-- Witness for C4 at a concrete two-file input: `foo.py` (one class, listed
first) and `main.py` (no classes or functions, listed second); `main.py`
still precedes `foo.py` in the selector's output. -/
theorem C4_key_selector_witness :
    (_get_key_files [exB, exA] = _get_key_files [exB, exA] ∧
      ((_get_key_files [exB, exA]).map FileInfo.path).Nodup ∧
      exA.path ∈ (_get_key_files [exB, exA]).map FileInfo.path ∧
      exB.path ∈ (_get_key_files [exB, exA]).map FileInfo.path ∧
      ((_get_key_files [exB, exA]).map FileInfo.path).indexOf exA.path <
        ((_get_key_files [exB, exA]).map FileInfo.path).indexOf exB.path) :=
  C4_key_selector [exB, exA] (by decide) exA exB (by decide) (by decide)
    (by decide) (by decide) (by decide) (by decide) (by decide)

end Gitdocify
